import Mathlib

/-!
Verification of the Manufacturing-Sim repository against its natural-language
specification.

The repository ships the React/Three.js frontend (src/frontend/src and the
unnamed variants of the same files); the FastAPI backend (backend/main.py)
that hosts the simulation engine is not part of the source tree.  Frontend
functions are embedded directly from their TypeScript source; engine-side
definitions are modelled from the specification and are marked as such in
their doc comments.

Conventions of the embedding:
- JavaScript numbers are modelled as rationals; where NaN handling matters
  (Metrics.tsx clamp01) a dedicated sum type JSNum with an explicit nan
  constructor is used.
- JavaScript Map construction from an entry list keeps the LAST entry for a
  duplicated key; the fold-based idGet and posScan below reproduce that.
- Fallible operations return Except.
-/

/-- The wire status union of api.ts (line 25) and types.ts (line 7):
status is one of the three string literals processing, queued, idle. -/
inductive MachineStatus
  | processing
  | queued
  | idle
deriving DecidableEq

/-- The string each MachineStatus constructor stands for on the wire. -/
def MachineStatus.asString : MachineStatus → String
  | .processing => "processing"
  | .queued => "queued"
  | .idle => "idle"

/-- InProgressDetail of types.ts: item_id plus a progress fraction. -/
structure InProgressDetail where
  item_id : ℕ
  progress : ℚ
deriving DecidableEq

/-- Element type of StateSnapshot.machines in api.ts (lines 21-34);
blocked is a separate boolean field next to the three-valued status. -/
structure ApiMachine where
  id : ℕ
  name : String
  next : Option ℕ
  status : MachineStatus
  in_progress : ℕ
  in_progress_detail : List InProgressDetail
  queue : ℕ
  buffer : ℕ
  takt_time : ℚ
  completed : ℕ
  utilization : ℚ
  blocked : Bool
deriving DecidableEq

/-- StateSnapshot of api.ts (lines 13-35). -/
structure StateSnapshot where
  timestamp : ℚ
  items_in_system : ℕ
  throughput : ℚ
  total_started : ℕ
  total_completed : ℕ
  avg_cycle_time : ℚ
  running : Bool
  machines : List ApiMachine
deriving DecidableEq

/-- MachineView of types.ts (lines 3-15): like the api.ts machine record but
without the blocked field. -/
structure MachineView where
  id : ℕ
  name : String
  next : Option ℕ
  status : MachineStatus
  in_progress : ℕ
  in_progress_detail : List InProgressDetail
  queue : ℕ
  buffer : ℕ
  takt_time : ℚ
  completed : ℕ
  utilization : ℚ
deriving DecidableEq

/-- A JavaScript number that may be NaN (Metrics.tsx feeds arbitrary server
values into clamp01, which tests Number.isNaN explicitly). -/
inductive JSNum
  | nan
  | val (x : ℚ)
deriving DecidableEq

/-- clamp01 of Metrics.tsx (lines 136-139): NaN maps to 0, otherwise
Math.max(0, Math.min(1, x)). -/
def clamp01 : JSNum → ℚ
  | .nan => 0
  | .val x => max 0 (min 1 x)

/-- The utilization value Metrics.tsx charts for a machine (line 47):
row[key] = clamp01(m.utilization ?? 0); a missing utilization becomes 0. -/
def chartedUtil (u : Option JSNum) : ℚ :=
  clamp01 (u.getD (.val 0))

/-- One point of the throughput history series kept by App (part_005 lines
9-14). -/
structure HistoryPoint where
  t : ℚ
  throughput : ℚ
  items_in_system : ℕ
  avg_utilization : ℚ
deriving DecidableEq

/-- One sampled row of the per-machine utilization series kept by Metrics.tsx
(lines 14-17); the dynamic m_<id> columns are kept as an association list. -/
structure UtilRow where
  t : ℚ
  cols : List (ℕ × ℚ)
deriving DecidableEq

/-- The history update performed by applySnapshot (part_005 lines 50-62) on a
sample that passes the 5-second throttle: append the new point, then
splice(0, next.length - HISTORY_MAX) drops the oldest points beyond 120.
A throttled call leaves the series unchanged, so folding over the points that
were actually appended covers every call sequence. -/
def applySnapshot (prev : List HistoryPoint) (p : HistoryPoint) : List HistoryPoint :=
  let next := prev ++ [p]
  if 120 < next.length then next.drop (next.length - 120) else next

/-- The utilization-series update of Metrics.tsx (lines 51-55): append the
row, and when the length exceeds MAX_POINTS = 120, shift() removes the oldest
row. -/
def pushUtilRow (prev : List UtilRow) (r : UtilRow) : List UtilRow :=
  let next := prev ++ [r]
  if 120 < next.length then next.tail else next

/-- Index-scan behind machinePositions of scene/Factory.tsx (lines 12-15):
new Map(m.map((mm, idx) => [mm.id, [idx * MACHINE_X_SPACING, 0.5, 0]])); a
duplicated id keeps the last entry.  Only the x coordinate matters for the
claims, with MACHINE_X_SPACING = 6. -/
def posScan (k : ℕ) : List MachineView → ℕ → Option ℚ → Option ℚ
  | [], _, acc => acc
  | m :: rest, idx, acc =>
      posScan k rest (idx + 1) (if m.id = k then some (6 * (idx : ℚ)) else acc)

/-- machinePositions.get(k) of scene/Factory.tsx, x coordinate. -/
def machinePosX (ms : List MachineView) (k : ℕ) : Option ℚ :=
  posScan k ms 0 none

/-- The clamped interpolation parameter of renderItems (scene/Factory.tsx
line 33): Math.min(Math.max(d.progress, 0), 1). -/
def clampT (p : ℚ) : ℚ := min (max p 0) 1

/-- The linear interpolation of renderItems (scene/Factory.tsx line 34):
x = fromPos[0] + (toPos[0] - fromPos[0]) * t. -/
def lerpX (fromX toX t : ℚ) : ℚ := fromX + (toX - fromX) * t

/-- The x coordinate of the interpolation target in renderItems
(scene/Factory.tsx line 31): toPos = m.next ? machinePositions.get(m.next)
?? fromPos : fromPos.  A next of 0 is falsy in JavaScript and falls back to
fromPos, as does a missing successor id. -/
def nextX (ms : List MachineView) (m : MachineView) (fromX : ℚ) : ℚ :=
  match m.next with
  | some n => if n = 0 then fromX else (machinePosX ms n).getD fromX
  | none => fromX

/-- The x coordinate renderItems (scene/Factory.tsx lines 28-38) gives the
sphere of an in-progress item with progress p at machine m; none when the
machine has no position (machinePositions.get(m.id)! would fail). -/
def movingItemX (ms : List MachineView) (m : MachineView) (p : ℚ) : Option ℚ :=
  match machinePosX ms m.id with
  | none => none
  | some fromX => some (lerpX fromX (nextX ms m fromX) (clampT p))

/-- The machine record as used by orderLaneChain in the multi-lane Factory
scene (part_004 lines 12-36): only id, next and lane are read. -/
structure LaneMachine where
  id : ℕ
  next : Option ℕ
  lane : ℕ
deriving DecidableEq

/-- One step of building idMap = new Map(laneMachines.map((m) => [m.id, m]))
(part_004 line 13): a later entry overwrites an earlier one with the same id. -/
def idGetStep (k : ℕ) (acc : Option LaneMachine) (m : LaneMachine) : Option LaneMachine :=
  if m.id = k then some m else acc

/-- idMap.get(k) of orderLaneChain: the last machine in the list whose id is
k, if any. -/
def idGet (ms : List LaneMachine) (k : ℕ) : Option LaneMachine :=
  ms.foldl (idGetStep k) none

/-- Membership of k in the targets set of orderLaneChain (part_004 lines
14-20): some machine m has m.next = k and the machine idMap.get(k) exists and
lies in the same lane as m. -/
def isTarget (ms : List LaneMachine) (k : ℕ) : Bool :=
  ms.any (fun m =>
    m.next == some k &&
      match idGet ms k with
      | some nxt => nxt.lane == m.lane
      | none => false)

/-- The sources of orderLaneChain (part_004 line 21): machines whose id is in
no targets set. -/
def chainSources (ms : List LaneMachine) : List LaneMachine :=
  ms.filter (fun m => !(isTarget ms m.id))

/-- The while loop of orderLaneChain (part_004 lines 24-32) started at cur:
stop if cur is already in ordered, otherwise push cur and follow
idMap.get(cur).next while it stays in the same lane.  Termination is genuine:
each recursive call pushes a machine id that was not yet in ordered, so the
count of machine ids outside ordered strictly decreases. -/
def chainFrom (ms : List LaneMachine) (ordered : List ℕ) (cur : ℕ) : List ℕ :=
  if hcur : cur ∈ ordered then ordered
  else
    match hm : idGet ms cur with
    | none => ordered ++ [cur]
    | some m =>
      match m.next with
      | none => ordered ++ [cur]
      | some nid =>
        match idGet ms nid with
        | none => ordered ++ [cur]
        | some nextM =>
          if nextM.lane = m.lane then chainFrom ms (ordered ++ [cur]) nextM.id
          else ordered ++ [cur]
termination_by ((ms.map LaneMachine.id).filter (fun i => decide (i ∉ ordered))).length
decreasing_by
  have hidcur : cur ∈ ms.map LaneMachine.id := by
    have key : ∀ (l : List LaneMachine) (acc : Option LaneMachine) (v : LaneMachine),
        l.foldl (idGetStep cur) acc = some v → (v ∈ l ∧ v.id = cur) ∨ acc = some v := by
      intro l
      induction l with
      | nil => intro acc v h; exact Or.inr h
      | cons hd tl ih =>
        intro acc v h
        rcases ih _ v h with ⟨h1, h2⟩ | hacc
        · exact Or.inl ⟨List.mem_cons_of_mem _ h1, h2⟩
        · unfold idGetStep at hacc
          by_cases hc : hd.id = cur
          · rw [if_pos hc] at hacc
            cases hacc
            exact Or.inl ⟨List.mem_cons_self _ _, hc⟩
          · rw [if_neg hc] at hacc
            exact Or.inr hacc
    rcases key ms none m hm with ⟨h1, h2⟩ | hnone
    · exact List.mem_map.mpr ⟨m, h1, h2⟩
    · cases hnone
  have hle : ∀ (p q : ℕ → Bool), (∀ i, q i = true → p i = true) →
      ∀ (l : List ℕ), (l.filter q).length ≤ (l.filter p).length := by
    intro p q hpq l
    induction l with
    | nil => simp
    | cons hd tl ih =>
      cases hq : q hd
      · cases hp : p hd <;> simp [List.filter_cons, hp, hq] <;> omega
      · have hp : p hd = true := hpq _ hq
        simp [List.filter_cons, hp, hq]
        omega
  have hlt : ∀ (p q : ℕ → Bool) (a : ℕ), (∀ i, q i = true → p i = true) →
      p a = true → q a = false →
      ∀ (l : List ℕ), a ∈ l → (l.filter q).length < (l.filter p).length := by
    intro p q a hpq hpa hqa l hal
    induction l with
    | nil => cases hal
    | cons hd tl ih =>
      rcases List.mem_cons.mp hal with rfl | htl
      · simp only [List.filter_cons, hpa, hqa, if_true, if_false]
        exact Nat.lt_succ_of_le (hle p q hpq tl)
      · cases hq : q hd
        · cases hp : p hd <;> simp [List.filter_cons, hp, hq] <;>
            have := ih htl <;> omega
        · have hp : p hd = true := hpq _ hq
          simp [List.filter_cons, hp, hq]
          have := ih htl
          omega
  have happ : ∀ i : ℕ,
      decide (i ∉ ordered ++ [cur]) = true → decide (i ∉ ordered) = true := by
    intro i h
    simp only [decide_eq_true_eq] at h ⊢
    exact fun hmem => h (List.mem_append_left _ hmem)
  have hpa : decide (cur ∉ ordered) = true := by simpa using hcur
  have hqa : decide (cur ∉ ordered ++ [cur]) = false := by
    simp [List.mem_append]
  exact hlt _ _ cur happ hpa hqa (ms.map LaneMachine.id) hidcur

/-- The source loop of orderLaneChain (part_004 lines 23-33): run the while
loop once per source, threading the ordered list through. -/
def walkAll (ms : List LaneMachine) : List ℕ :=
  (chainSources ms).foldl (fun ordered s => chainFrom ms ordered s.id) []

/-- The final sweep of orderLaneChain (part_004 line 34): append every
machine id not yet in ordered, in input order. -/
def backfill (ms : List LaneMachine) (ordered : List ℕ) : List ℕ :=
  ms.foldl (fun acc m => if m.id ∈ acc then acc else acc ++ [m.id]) ordered

/-- orderLaneChain of part_004 (lines 12-36): order the machines of one lane
left to right by following next chains from the sources, then append any id
the walk missed. -/
def orderLaneChain (ms : List LaneMachine) : List ℕ :=
  backfill ms (walkAll ms)

/-- Modelled from the spec: the Item record of the data model (spec read 3),
missing with backend/main.py; id, lane_id and created_at as specified
(cycle_time is folded into sum_cycle_time on completion). -/
structure Item where
  id : ℕ
  lane_id : ℕ
  created_at : ℚ
deriving DecidableEq

/-- Modelled from the spec: the Station record of the data model, missing
with backend/main.py: id, name, lane_id, next_id chain link, takt_time,
buffer_capacity, the FIFO queue, the at-most-one in_progress item with its
start_time, and the two accumulators. -/
structure Station where
  id : ℕ
  name : String
  lane_id : ℕ
  next_id : Option ℕ
  takt_time : ℚ
  buffer_capacity : ℕ
  queue : List Item
  in_progress : Option (Item × ℚ)
  completed_count : ℕ
  busy_time_accum : ℚ
deriving DecidableEq

/-- Modelled from the spec: SimulationState, missing with backend/main.py:
sim_time, running, the three global counters, the stations, the list of lane
head station ids (each Lane holds a reference to its head station), and the
monotone item id counter. -/
structure SimulationState where
  sim_time : ℚ
  running : Bool
  total_started : ℕ
  total_completed : ℕ
  sum_cycle_time : ℚ
  stations : List Station
  lane_heads : List ℕ
  next_item_id : ℕ
deriving DecidableEq

/-- Modelled from the spec: lookup in the id-keyed station table (design
note: stations live in an id-keyed table; ids are unique, so first match). -/
def findStation : List Station → ℕ → Option Station
  | [], _ => none
  | st :: rest, i => if st.id = i then some st else findStation rest i

/-- Modelled from the spec: in-place update of the station with the given id
in the id-keyed table (first match, matching findStation). -/
def updStation : List Station → ℕ → (Station → Station) → List Station
  | [], _, _ => []
  | st :: rest, i, f => if st.id = i then f st :: rest else st :: updStation rest i f

/-- Modelled from the spec: step 1 of the Flow Engine for one station
(spec read 4.2): when the in_progress item has elapsed at least takt_time,
a terminal station completes it (total_completed, sum_cycle_time,
completed_count) and a non-terminal station appends it to the downstream
queue only if that queue is strictly below its buffer_capacity; otherwise the
station is blocked and keeps holding the finished item. -/
def doTransfer (s : SimulationState) (i : ℕ) : SimulationState :=
  match findStation s.stations i with
  | none => s
  | some st =>
    match st.in_progress with
    | none => s
    | some (it, start) =>
      if st.takt_time ≤ s.sim_time - start then
        match st.next_id with
        | none =>
          { s with total_completed := s.total_completed + 1, sum_cycle_time := s.sum_cycle_time + (s.sim_time - it.created_at), stations := updStation s.stations i (fun x => { x with in_progress := none, completed_count := x.completed_count + 1 }) }
        | some nid =>
          match findStation s.stations nid with
          | none => s
          | some nst =>
            if nst.queue.length < nst.buffer_capacity then
              { s with stations := updStation (updStation s.stations nid (fun x => { x with queue := x.queue ++ [it] })) i (fun x => { x with in_progress := none, completed_count := x.completed_count + 1 }) }
            else s
      else s

/-- Modelled from the spec: step 2 of the Flow Engine for one station: if
in_progress is empty and the queue is non-empty, dequeue the head item and
start processing it at the current simulated time. -/
def doStart (s : SimulationState) (i : ℕ) : SimulationState :=
  match findStation s.stations i with
  | none => s
  | some st =>
    match st.in_progress, st.queue with
    | none, it :: rest =>
      { s with stations := updStation s.stations i (fun x => { x with in_progress := some (it, s.sim_time), queue := rest }) }
    | _, _ => s

/-- Modelled from the spec: step 3 of the Flow Engine for one station: a lane
head with queue strictly below buffer_capacity admits a freshly numbered item
and counts it in total_started. -/
def doAdmit (s : SimulationState) (i : ℕ) : SimulationState :=
  if i ∈ s.lane_heads then
    match findStation s.stations i with
    | none => s
    | some st =>
      if st.queue.length < st.buffer_capacity then
        { s with stations := updStation s.stations i (fun x => { x with queue := x.queue ++ [{ id := s.next_item_id, lane_id := x.lane_id, created_at := s.sim_time }] }), total_started := s.total_started + 1, next_item_id := s.next_item_id + 1 }
      else s
  else s

/-- Modelled from the spec: step 4 of the Flow Engine: every station whose
in_progress is non-empty at the end of the tick accrues busy time (blocked
holding counts as busy). -/
def busyAccum (dt : ℚ) (s : SimulationState) : SimulationState :=
  { s with stations := s.stations.map (fun st =>
      if st.in_progress.isSome then { st with busy_time_accum := st.busy_time_accum + dt } else st) }

/-- Modelled from the spec: the per-station body of Step, spec read 4.2 items
1-3 in order for one station. -/
def stepStation (s : SimulationState) (i : ℕ) : SimulationState :=
  doAdmit (doStart (doTransfer s i) i) i

/-- Modelled from the spec: Step over all stations.  The spec fixes the
traversal as downstream-to-upstream per lane; the traversal is passed here as
the explicit id list `order`, and every theorem below holds for every order,
in particular the spec's. -/
def stepAll (order : List ℕ) (s : SimulationState) : SimulationState :=
  order.foldl stepStation s

/-- Modelled from the spec: one clock tick, missing with backend/main.py:
while running, simulated time advances by the fixed delta and the Flow Engine
runs under exclusive access; while paused the tick does nothing. -/
def tick (order : List ℕ) (dt : ℚ) (s : SimulationState) : SimulationState :=
  if s.running then busyAccum dt (stepAll order { s with sim_time := s.sim_time + dt }) else s

/-- Modelled from the spec: the clock-level effect of Start on the engine
value: running becomes true. -/
def startClock (s : SimulationState) : SimulationState :=
  { s with running := true }

/-- Modelled from the spec: the clock-level effect of Pause: running becomes
false; simulated time is frozen, not reset. -/
def pauseClock (s : SimulationState) : SimulationState :=
  { s with running := false }

/-- Modelled from the spec: the engine value plus the Persistence Store's
captured snapshot and the count of live ticking driver tasks spawned by the
Simulation Clock, all missing with backend/main.py. -/
structure SystemState where
  sim : SimulationState
  saved : Option SimulationState
  drivers : ℕ
deriving DecidableEq

/-- Modelled from the spec: SaveState captures a full, consistent copy of
SimulationState under the tick's exclusivity. -/
def saveState (w : SystemState) : SystemState :=
  { w with saved := some w.sim }

/-- Modelled from the spec: LoadState replaces the entire current state, but
only while running is false; invoking it while running fails with a state
error before any mutation, and loading with no stored snapshot also fails. -/
def loadState (w : SystemState) : Except String SystemState :=
  if w.sim.running then Except.error "StateError: LoadState while running"
  else
    match w.saved with
    | some sv => Except.ok { w with sim := sv }
    | none => Except.error "StateError: no saved snapshot"

/-- Modelled from the spec: Start transitions running from false to true and
spawns the single ticking driver; calling it while already running is a no-op
and spawns no second driver. -/
def startSystem (w : SystemState) : SystemState :=
  if w.sim.running then w else { w with sim := startClock w.sim, drivers := w.drivers + 1 }

/-- Modelled from the spec: Pause sets running to false; the driver loop
observes the flag and stops, so no driver task remains. Idempotent. -/
def pauseSystem (w : SystemState) : SystemState :=
  { w with sim := pauseClock w.sim, drivers := 0 }

/-- Modelled from the spec: items currently in the system, counted over the
station queues and in_progress slots. -/
def itemsInSystem (s : SimulationState) : ℕ :=
  (s.stations.map (fun st => st.queue.length + (if st.in_progress.isSome then 1 else 0))).sum

/-- Modelled from the spec: throughput = total_completed / sim_time, defined
as 0 when sim_time = 0 (the division is guarded, not evaluated). -/
def throughputOf (s : SimulationState) : ℚ :=
  if s.sim_time = 0 then 0 else (s.total_completed : ℚ) / s.sim_time

/-- Modelled from the spec: avg_cycle_time = sum_cycle_time / total_completed,
0 when total_completed = 0. -/
def avgCycleTimeOf (s : SimulationState) : ℚ :=
  if s.total_completed = 0 then 0 else s.sum_cycle_time / (s.total_completed : ℚ)

/-- Modelled from the spec: per-station utilization = busy_time_accum /
sim_time, clamped to the unit interval. -/
def utilizationOf (st : Station) (simTime : ℚ) : ℚ :=
  max 0 (min 1 (st.busy_time_accum / simTime))

/-- Modelled from the spec: the per-station projection the State Broadcaster
exposes in the api.ts wire shape: the three-valued status string, the
separate blocked flag (in_progress item already past its takt_time), the
queue length, and the clamped utilization.  The in-progress fraction sent in
in_progress_detail is elapsed / takt_time. -/
def machineView (s : SimulationState) (st : Station) : ApiMachine :=
  { id := st.id
    name := st.name
    next := st.next_id
    status := match st.in_progress with
      | some _ => MachineStatus.processing
      | none => if st.queue.length = 0 then MachineStatus.idle else MachineStatus.queued
    in_progress := if st.in_progress.isSome then 1 else 0
    in_progress_detail := match st.in_progress with
      | some (it, start) => [{ item_id := it.id, progress := (s.sim_time - start) / st.takt_time }]
      | none => []
    queue := st.queue.length
    buffer := st.buffer_capacity
    takt_time := st.takt_time
    completed := st.completed_count
    utilization := utilizationOf st s.sim_time
    blocked := match st.in_progress with
      | some (_, start) => decide (st.takt_time ≤ s.sim_time - start)
      | none => false }

/-- Modelled from the spec: GetSnapshot, an immutable fully-copied view of
SimulationState in the api.ts StateSnapshot shape, metrics computed on
demand from the accumulators. -/
def getSnapshot (s : SimulationState) : StateSnapshot :=
  { timestamp := s.sim_time
    items_in_system := itemsInSystem s
    throughput := throughputOf s
    total_started := s.total_started
    total_completed := s.total_completed
    avg_cycle_time := avgCycleTimeOf s
    running := s.running
    machines := s.stations.map (machineView s) }

/-- The Cutting station of the reference line (src README data model):
takt_time 5, buffer 2, feeding station 2. -/
def cuttingStation : Station :=
  { id := 1, name := "Cutting", lane_id := 0, next_id := some 2, takt_time := 5
    buffer_capacity := 2, queue := [], in_progress := none, completed_count := 0
    busy_time_accum := 0 }

/-- The Assembly station of the reference line: takt_time 7.5, buffer 2,
feeding station 3. -/
def assemblyStation : Station :=
  { id := 2, name := "Assembly", lane_id := 0, next_id := some 3, takt_time := 15 / 2
    buffer_capacity := 2, queue := [], in_progress := none, completed_count := 0
    busy_time_accum := 0 }

/-- The Packaging station of the reference line: takt_time 3, buffer 1,
terminal. -/
def packagingStation : Station :=
  { id := 3, name := "Packaging", lane_id := 0, next_id := none, takt_time := 3
    buffer_capacity := 1, queue := [], in_progress := none, completed_count := 0
    busy_time_accum := 0 }

/-- Modelled from the spec: the initial engine state of the reference line
from the src README: the three stations above on lane 0 with station 1 as
lane head, everything else zeroed and paused. -/
def initState : SimulationState :=
  { sim_time := 0, running := false, total_started := 0, total_completed := 0
    sum_cycle_time := 0, stations := [cuttingStation, assemblyStation, packagingStation]
    lane_heads := [1], next_item_id := 1 }

/-- The initial whole-system state: initial engine value, nothing saved, no
driver running. -/
def initSystem : SystemState :=
  { sim := initState, saved := none, drivers := 0 }

/-- A concrete machine view used to instantiate theorems about the scene:
machine 1 processing an item whose reported progress overshoots 1. -/
def exMachineView : MachineView :=
  { id := 1, name := "Cutting", next := some 2, status := MachineStatus.processing
    in_progress := 1, in_progress_detail := [{ item_id := 7, progress := 3 / 2 }]
    queue := 1, buffer := 2, takt_time := 5, completed := 0, utilization := 1 / 2 }

/-- A second concrete machine view, successor of the first. -/
def exMachineView2 : MachineView :=
  { id := 2, name := "Assembly", next := none, status := MachineStatus.idle
    in_progress := 0, in_progress_detail := []
    queue := 0, buffer := 2, takt_time := 15 / 2, completed := 0, utilization := 0 }

/-- A two-machine cyclic lane (1 points to 2, 2 points back to 1): the input
on which termination of orderLaneChain is exercised. -/
def cyclicLane : List LaneMachine :=
  [{ id := 1, next := some 2, lane := 0 }, { id := 2, next := some 1, lane := 0 }]

/-- The per-station capacity predicate of the spec's invariant list: queue
length at most buffer_capacity. -/
def QueueOk (st : Station) : Prop :=
  st.queue.length ≤ st.buffer_capacity

/-- Modelled from the spec: the invariant of spec read 3 quantified over all
stations of a state. -/
def QueueCapInv (s : SimulationState) : Prop :=
  ∀ st ∈ s.stations, QueueOk st

/-- Modelled from the spec: the engine states reachable from the reference
initial state through the Simulation Clock operations: Start, Pause and
ticks with any traversal order and any fixed delta. -/
inductive Reachable : SimulationState → Prop
  | init : Reachable initState
  | tickStep (order : List ℕ) (dt : ℚ) {s : SimulationState} :
      Reachable s → Reachable (tick order dt s)
  | startStep {s : SimulationState} : Reachable s → Reachable (startClock s)
  | pauseStep {s : SimulationState} : Reachable s → Reachable (pauseClock s)

/-- Claim C1 (counterexample): no value of the status field exposed to
observers renders as the string blocked — api.ts types status as exactly
processing, queued or idle, and blocked is a separate boolean field. -/
theorem status_blocked_not_a_status_value :
    ¬ ∃ st : MachineStatus, st.asString = "blocked" := by
  rintro ⟨st, h⟩
  cases st <;> exact absurd h (by decide)

/-- Claim C1 (amended): the per-station status field exposed to observers
takes one of exactly three values — idle, processing or queued — and is never
the string blocked; being blocked is reported through the separate boolean
field of the api.ts machine record instead. -/
theorem status_exactly_three_values (st : MachineStatus) :
    (st = MachineStatus.idle ∨ st = MachineStatus.processing ∨ st = MachineStatus.queued) ∧
    st.asString ∈ ["processing", "queued", "idle"] ∧
    st.asString ≠ "blocked" := by
  cases st <;>
    exact ⟨by simp, by simp [MachineStatus.asString], by decide⟩

/-- Claim C4: every value charted for per-station utilization lies in the
unit interval, for every input including NaN and a missing value, and the
utilization each snapshot reports is busy_time_accum / sim_time clamped to
the unit interval, hence also in it. -/
theorem charted_utilization_in_unit_interval :
    (∀ u : Option JSNum, 0 ≤ chartedUtil u ∧ chartedUtil u ≤ 1) ∧
    (∀ s : SimulationState, ∀ mv ∈ (getSnapshot s).machines,
      0 ≤ mv.utilization ∧ mv.utilization ≤ 1 ∧
      ∃ st ∈ s.stations, mv.utilization = max 0 (min 1 (st.busy_time_accum / s.sim_time))) := by
  have hb : ∀ y : JSNum, 0 ≤ clamp01 y ∧ clamp01 y ≤ 1 := by
    intro y
    cases y with
    | nan => simp [clamp01]
    | val x =>
      exact ⟨le_max_left _ _, max_le zero_le_one (min_le_left _ _)⟩
  constructor
  · intro u
    exact hb _
  · intro s mv hmv
    simp only [getSnapshot, List.mem_map] at hmv
    obtain ⟨st, hst, rfl⟩ := hmv
    refine ⟨?_, ?_, st, hst, rfl⟩
    · exact le_max_left _ _
    · exact max_le zero_le_one (min_le_left _ _)

/-- Claim C5: the snapshot's throughput is 0 whenever sim_time is 0 (the
division is guarded, never evaluated there), and equals
total_completed / sim_time whenever sim_time is positive. -/
theorem throughput_zero_guard (s : SimulationState) :
    (s.sim_time = 0 → (getSnapshot s).throughput = 0) ∧
    (0 < s.sim_time → (getSnapshot s).throughput = (s.total_completed : ℚ) / s.sim_time) := by
  constructor
  · intro h
    simp [getSnapshot, throughputOf, h]
  · intro h
    simp [getSnapshot, throughputOf, ne_of_gt h]

/-- Claim C6: LoadState invoked while running fails with a state error — no
successor state is produced, so the simulation state is untouched — and any
successful LoadState happens only while running is false and fully replaces
the engine state with the stored snapshot. -/
theorem loadState_requires_paused (w : SystemState) :
    (w.sim.running = true → loadState w = Except.error "StateError: LoadState while running") ∧
    (∀ w', loadState w = Except.ok w' →
      w.sim.running = false ∧ ∃ sv, w.saved = some sv ∧ w' = { w with sim := sv }) := by
  constructor
  · intro h
    simp [loadState, h]
  · intro w' h
    by_cases hr : w.sim.running
    · simp [loadState, hr] at h
    · rcases hsv : w.saved with _ | sv
      · simp [loadState, hr, hsv] at h
      · simp [loadState, hr, hsv] at h
        exact ⟨by simp [hr], sv, rfl, h.symm⟩

/-- Claim C7: Pause is idempotent — a second Pause leaves the whole system
state identical — and Start while already running is a no-op, so it spawns no
second ticking driver. -/
theorem pause_start_idempotent (w : SystemState) :
    pauseSystem (pauseSystem w) = pauseSystem w ∧
    (w.sim.running = true → startSystem w = w) := by
  constructor
  · rfl
  · intro h
    simp [startSystem, h]

/-- One applySnapshot step keeps the throughput history at 120 points or
fewer (the splice clamps unconditionally). -/
theorem applySnapshot_length_le (prev : List HistoryPoint) (p : HistoryPoint) :
    (applySnapshot prev p).length ≤ 120 := by
  unfold applySnapshot
  by_cases hlen : 120 < (prev ++ [p]).length
  · simp only [hlen, if_true, List.length_drop]
    omega
  · simp only [hlen, if_false]
    omega

/-- One pushUtilRow step keeps the utilization series at 120 rows or fewer. -/
theorem pushUtilRow_length_le (prev : List UtilRow) (r : UtilRow)
    (h : prev.length ≤ 120) : (pushUtilRow prev r).length ≤ 120 := by
  unfold pushUtilRow
  by_cases hlen : 120 < (prev ++ [r]).length
  · simp only [hlen, if_true, List.length_tail]
    simp only [List.length_append, List.length_singleton] at hlen ⊢
    omega
  · simp only [hlen, if_false]
    omega

/-- Folding applySnapshot from a series of 120 points or fewer never exceeds
120 points. -/
theorem foldl_applySnapshot_le (hs : List HistoryPoint) :
    ∀ acc : List HistoryPoint, acc.length ≤ 120 → (hs.foldl applySnapshot acc).length ≤ 120 := by
  induction hs with
  | nil => intro acc h; simpa using h
  | cons hd tl ih =>
    intro acc h
    simpa using ih _ (applySnapshot_length_le acc hd)

/-- Folding pushUtilRow from a series of 120 rows or fewer never exceeds 120
rows. -/
theorem foldl_pushUtilRow_le (rs : List UtilRow) :
    ∀ acc : List UtilRow, acc.length ≤ 120 → (rs.foldl pushUtilRow acc).length ≤ 120 := by
  induction rs with
  | nil => intro acc h; simpa using h
  | cons hd tl ih =>
    intro acc h
    simpa using ih _ (pushUtilRow_length_le acc hd h)

/-- Claim C10: after every sequence of applySnapshot calls the throughput
history holds at most 120 points and the per-machine utilization series at
most 120 rows, and both updates discard from the front — the result is always
a suffix of the old series with the new point appended, so the oldest points
are the ones dropped. -/
theorem history_series_bounded (hs : List HistoryPoint) (rs : List UtilRow) :
    ((hs.foldl applySnapshot []).length ≤ 120) ∧
    ((rs.foldl pushUtilRow []).length ≤ 120) ∧
    (∀ (prev : List HistoryPoint) (p : HistoryPoint), applySnapshot prev p <:+ prev ++ [p]) ∧
    (∀ (prev : List UtilRow) (r : UtilRow), pushUtilRow prev r <:+ prev ++ [r]) := by
  refine ⟨foldl_applySnapshot_le hs [] (by simp), foldl_pushUtilRow_le rs [] (by simp), ?_, ?_⟩
  · intro prev p
    unfold applySnapshot
    by_cases hlen : 120 < (prev ++ [p]).length
    · simp only [hlen, if_true]
      exact List.drop_suffix _ _
    · simp only [hlen, if_false]
      exact List.suffix_refl _
  · intro prev r
    unfold pushUtilRow
    by_cases hlen : 120 < (prev ++ [r]).length
    · simp only [hlen, if_true]
      exact List.tail_suffix _
    · simp only [hlen, if_false]
      exact List.suffix_refl _

/-- A station found in the table is one of its entries. -/
theorem findStation_mem {sts : List Station} {i : ℕ} {st : Station}
    (h : findStation sts i = some st) : st ∈ sts := by
  induction sts with
  | nil => simp [findStation] at h
  | cons hd tl ih =>
    by_cases hc : hd.id = i
    · simp only [findStation, if_pos hc] at h
      cases h
      exact List.mem_cons_self _ _
    · simp only [findStation, if_neg hc] at h
      exact List.mem_cons_of_mem _ (ih h)

/-- Every entry of an updated table is an old entry or the update applied to
the station findStation returns. -/
theorem mem_updStation {sts : List Station} {i : ℕ} {f : Station → Station} {st' : Station}
    (h : st' ∈ updStation sts i f) :
    st' ∈ sts ∨ ∃ st, findStation sts i = some st ∧ st' = f st := by
  induction sts with
  | nil => simp [updStation] at h
  | cons hd tl ih =>
    by_cases hc : hd.id = i
    · simp only [updStation, if_pos hc, List.mem_cons] at h
      rcases h with h | h
      · exact Or.inr ⟨hd, by simp [findStation, hc], h⟩
      · exact Or.inl (List.mem_cons_of_mem _ h)
    · simp only [updStation, if_neg hc, List.mem_cons] at h
      rcases h with h | h
      · exact Or.inl (h ▸ List.mem_cons_self _ _)
      · rcases ih h with h | ⟨st, hfind, hst⟩
        · exact Or.inl (List.mem_cons_of_mem _ h)
        · exact Or.inr ⟨st, by simp [findStation, hc, hfind], hst⟩

/-- An update that preserves QueueOk on every station preserves the capacity
invariant of the table. -/
theorem updStation_pres {sts : List Station} {i : ℕ} {f : Station → Station}
    (hall : ∀ st ∈ sts, QueueOk st) (hf : ∀ st, QueueOk st → QueueOk (f st)) :
    ∀ st' ∈ updStation sts i f, QueueOk st' := by
  intro st' h
  rcases mem_updStation h with h | ⟨st, hfind, rfl⟩
  · exact hall _ h
  · exact hf _ (hall _ (findStation_mem hfind))

/-- An update whose result is QueueOk on the station it actually touches
preserves the capacity invariant of the table. -/
theorem updStation_pres_found {sts : List Station} {i : ℕ} {f : Station → Station}
    {st₀ : Station} (hall : ∀ st ∈ sts, QueueOk st)
    (hfind : findStation sts i = some st₀) (hf : QueueOk (f st₀)) :
    ∀ st' ∈ updStation sts i f, QueueOk st' := by
  intro st' h
  rcases mem_updStation h with h | ⟨st, hfind', rfl⟩
  · exact hall _ h
  · rw [hfind] at hfind'
    obtain rfl := Option.some.inj hfind'
    exact hf

/-- Step 1 of the Flow Engine preserves the capacity invariant: the only
queue that grows is the downstream queue, and only under its strict guard. -/
theorem doTransfer_inv {s : SimulationState} {i : ℕ} (h : QueueCapInv s) :
    QueueCapInv (doTransfer s i) := by
  unfold doTransfer
  split
  · exact h
  · rename_i st hfind
    split
    · exact h
    · rename_i it start hip
      split
      · split
        · intro st' hmem
          refine updStation_pres h (fun x hx => ?_) st' hmem
          exact hx
        · split
          · exact h
          · rename_i nid nst hfindn
            split
            · rename_i hlt
              intro st' hmem
              refine updStation_pres ?_ (fun x hx => ?_) st' hmem
              · refine updStation_pres_found h hfindn ?_
                have := h nst (findStation_mem hfindn)
                simp only [QueueOk] at this ⊢
                simp only [List.length_append, List.length_singleton]
                omega
              · exact hx
            · exact h
      · exact h

/-- Step 2 of the Flow Engine preserves the capacity invariant: dequeuing
only shortens a queue. -/
theorem doStart_inv {s : SimulationState} {i : ℕ} (h : QueueCapInv s) :
    QueueCapInv (doStart s i) := by
  unfold doStart
  split
  · exact h
  · rename_i st hfind
    split
    · rename_i it rest hip hqueue
      intro st' hmem
      refine updStation_pres_found h hfind ?_ st' hmem
      have := h st (findStation_mem hfind)
      simp only [QueueOk] at this ⊢
      rw [hqueue] at this
      simp only [List.length_cons] at this
      omega
    · exact h

/-- Step 3 of the Flow Engine preserves the capacity invariant: admission
happens only under the strict guard on the head queue. -/
theorem doAdmit_inv {s : SimulationState} {i : ℕ} (h : QueueCapInv s) :
    QueueCapInv (doAdmit s i) := by
  unfold doAdmit
  split
  · split
    · exact h
    · rename_i st hfind
      split
      · rename_i hlt
        intro st' hmem
        refine updStation_pres_found h hfind ?_ st' hmem
        simp only [QueueOk, List.length_append, List.length_singleton]
        have := h st (findStation_mem hfind)
        simp only [QueueOk] at this
        omega
      · exact h
  · exact h

/-- Busy-time accrual leaves every queue and capacity unchanged. -/
theorem busyAccum_inv {s : SimulationState} {dt : ℚ} (h : QueueCapInv s) :
    QueueCapInv (busyAccum dt s) := by
  intro st' hmem
  simp only [busyAccum, List.mem_map] at hmem
  obtain ⟨st, hst, rfl⟩ := hmem
  have := h st hst
  split <;> exact this

/-- The whole per-station step preserves the capacity invariant. -/
theorem stepStation_inv {s : SimulationState} {i : ℕ} (h : QueueCapInv s) :
    QueueCapInv (stepStation s i) :=
  doAdmit_inv (doStart_inv (doTransfer_inv h))

/-- The Flow Engine's full traversal preserves the capacity invariant for
every traversal order. -/
theorem stepAll_inv (order : List ℕ) :
    ∀ s : SimulationState, QueueCapInv s → QueueCapInv (stepAll order s) := by
  induction order with
  | nil => intro s h; exact h
  | cons hd tl ih =>
    intro s h
    exact ih _ (stepStation_inv h)

/-- One clock tick preserves the capacity invariant. -/
theorem tick_inv {order : List ℕ} {dt : ℚ} {s : SimulationState}
    (h : QueueCapInv s) : QueueCapInv (tick order dt s) := by
  unfold tick
  split
  · exact busyAccum_inv (stepAll_inv order _ h)
  · exact h

/-- The reference initial state satisfies the capacity invariant. -/
theorem initState_inv : QueueCapInv initState := by
  intro st hst
  simp only [initState, List.mem_cons, List.not_mem_nil, or_false] at hst
  rcases hst with rfl | rfl | rfl <;>
    simp [QueueOk, cuttingStation, assemblyStation, packagingStation]

/-- Claim C2: in every reachable engine state — hence at every tick boundary
and in every snapshot taken from one — each station's queue length is at most
its buffer_capacity, and the queue and buffer fields of every machine view of
the snapshot satisfy the same bound. -/
theorem queue_length_le_buffer_capacity (s : SimulationState) (h : Reachable s) :
    QueueCapInv s ∧ ∀ mv ∈ (getSnapshot s).machines, mv.queue ≤ mv.buffer := by
  have hinv : QueueCapInv s := by
    induction h with
    | init => exact initState_inv
    | tickStep order dt _ ih => exact tick_inv ih
    | startStep _ ih => exact ih
    | pauseStep _ ih => exact ih
  refine ⟨hinv, ?_⟩
  intro mv hmv
  simp only [getSnapshot, List.mem_map] at hmv
  obtain ⟨st, hst, rfl⟩ := hmv
  exact hinv st hst

/-- Claim C2 witness: the invariant after one concrete tick of the started
reference line, by the reachability theorem. -/
theorem queue_length_le_buffer_capacity_witness :
    QueueCapInv (tick [3, 2, 1] (1 / 10) (startClock initState)) ∧
    ∀ mv ∈ (getSnapshot (tick [3, 2, 1] (1 / 10) (startClock initState))).machines,
      mv.queue ≤ mv.buffer :=
  queue_length_le_buffer_capacity _
    (Reachable.tickStep [3, 2, 1] (1 / 10) (Reachable.startStep Reachable.init))

/-- Claim C3 (counterexample): on a reachable running state, SaveState
followed immediately by LoadState does not yield the saved snapshot — the
load is rejected with the state error, because LoadState requires running to
be false. -/
theorem save_load_while_running_fails :
    loadState (saveState (startSystem initSystem)) =
      Except.error "StateError: LoadState while running" := rfl

/-- Claim C3 (amended): for every state with running false, SaveState
followed immediately by LoadState succeeds, the loaded engine state equals
the one captured at save time, its snapshot equals the snapshot at save time,
and every subsequent tick sequence from the loaded state is identical to the
one from the saved state. -/
theorem save_load_roundtrip (w : SystemState) (h : w.sim.running = false) :
    ∃ w', loadState (saveState w) = Except.ok w' ∧
      w'.sim = w.sim ∧
      w'.saved = some w.sim ∧
      getSnapshot w'.sim = getSnapshot w.sim ∧
      ∀ (order : List ℕ) (dt : ℚ) (n : ℕ),
        (tick order dt)^[n] w'.sim = (tick order dt)^[n] w.sim := by
  refine ⟨{ w with saved := some w.sim }, ?_, rfl, rfl, rfl, fun _ _ _ => rfl⟩
  simp [loadState, saveState, h]

/-- Claim C3 witness: the round trip on the concrete paused initial system. -/
theorem save_load_roundtrip_witness :
    ∃ w', loadState (saveState initSystem) = Except.ok w' ∧
      w'.sim = initSystem.sim ∧
      w'.saved = some initSystem.sim ∧
      getSnapshot w'.sim = getSnapshot initSystem.sim ∧
      ∀ (order : List ℕ) (dt : ℚ) (n : ℕ),
        (tick order dt)^[n] w'.sim = (tick order dt)^[n] initSystem.sim :=
  save_load_roundtrip initSystem rfl

/-- What a successful idMap.get tells: the machine returned is in the list
and carries the looked-up id. -/
theorem idGet_mem {ms : List LaneMachine} {k : ℕ} {v : LaneMachine}
    (h : idGet ms k = some v) : v ∈ ms ∧ v.id = k := by
  have key : ∀ (l : List LaneMachine) (acc : Option LaneMachine) (v' : LaneMachine),
      l.foldl (idGetStep k) acc = some v' → (v' ∈ l ∧ v'.id = k) ∨ acc = some v' := by
    intro l
    induction l with
    | nil => intro acc v' h'; exact Or.inr h'
    | cons hd tl ih =>
      intro acc v' h'
      rcases ih _ v' h' with ⟨h1, h2⟩ | hacc
      · exact Or.inl ⟨List.mem_cons_of_mem _ h1, h2⟩
      · unfold idGetStep at hacc
        by_cases hc : hd.id = k
        · rw [if_pos hc] at hacc
          cases hacc
          exact Or.inl ⟨List.mem_cons_self _ _, hc⟩
        · rw [if_neg hc] at hacc
          exact Or.inr hacc
  rcases key ms none v h with h1 | h2
  · exact h1
  · cases h2

/-- The three facts every stopping branch of the while loop provides: the
push extends ordered, keeps it duplicate-free, and adds only cur. -/
theorem chainStop_props (P : ℕ → Prop) {ordered : List ℕ} {cur : ℕ} (hcur : cur ∉ ordered) :
    (∀ i ∈ ordered, i ∈ ordered ++ [cur]) ∧
    (ordered.Nodup → (ordered ++ [cur]).Nodup) ∧
    (∀ i ∈ ordered ++ [cur], i ∈ ordered ∨ i = cur ∨ P i) := by
  refine ⟨fun i hi => List.mem_append_left _ hi, ?_, ?_⟩
  · intro h
    refine List.Nodup.append h (List.nodup_singleton _) ?_
    intro a ha hb
    rw [List.mem_singleton] at hb
    subst hb
    exact hcur ha
  · intro i hi
    rcases List.mem_append.mp hi with h | h
    · exact Or.inl h
    · exact Or.inr (Or.inl (List.mem_singleton.mp h))

/-- The while loop of orderLaneChain extends ordered monotonically, keeps it
duplicate-free, and pushes only the start id and ids of machines in the
list. -/
theorem chainFrom_props (ms : List LaneMachine) (ordered : List ℕ) (cur : ℕ) :
    (∀ i ∈ ordered, i ∈ chainFrom ms ordered cur) ∧
    (ordered.Nodup → (chainFrom ms ordered cur).Nodup) ∧
    (∀ i ∈ chainFrom ms ordered cur, i ∈ ordered ∨ i = cur ∨ i ∈ ms.map LaneMachine.id) := by
  induction ordered, cur using chainFrom.induct ms with
  | case1 ordered cur hcur =>
    rw [chainFrom, dif_pos hcur]
    exact ⟨fun i hi => hi, fun h => h, fun i hi => Or.inl hi⟩
  | case2 ordered cur hcur hm =>
    rw [chainFrom, dif_neg hcur, hm]
    exact chainStop_props _ hcur
  | case3 ordered cur hcur m hm hnext =>
    rw [chainFrom, dif_neg hcur, hm]
    dsimp only
    rw [hnext]
    exact chainStop_props _ hcur
  | case4 ordered cur hcur m hm nid hnext hn2 =>
    rw [chainFrom, dif_neg hcur, hm]
    dsimp only
    rw [hnext]
    dsimp only
    rw [hn2]
    exact chainStop_props _ hcur
  | case5 ordered cur hcur m hm nid hnext nextM hn2 hlane ih =>
    rw [chainFrom, dif_neg hcur, hm]
    dsimp only
    rw [hnext]
    dsimp only
    rw [hn2]
    dsimp only
    rw [if_pos hlane]
    obtain ⟨ihmono, ihnodup, ihsub⟩ := ih
    refine ⟨?_, ?_, ?_⟩
    · intro i hi
      exact ihmono i (List.mem_append_left _ hi)
    · intro h
      exact ihnodup ((chainStop_props (fun _ => True) hcur).2.1 h)
    · intro i hi
      rcases ihsub i hi with h | h | h
      · rcases List.mem_append.mp h with h | h
        · exact Or.inl h
        · exact Or.inr (Or.inl (List.mem_singleton.mp h))
      · subst h
        exact Or.inr (Or.inr (List.mem_map.mpr ⟨nextM, (idGet_mem hn2).1, rfl⟩))
      · exact Or.inr (Or.inr h)
  | case6 ordered cur hcur m hm nid hnext nextM hn2 hlane =>
    rw [chainFrom, dif_neg hcur, hm]
    dsimp only
    rw [hnext]
    dsimp only
    rw [hn2]
    dsimp only
    rw [if_neg hlane]
    exact chainStop_props _ hcur

/-- The final sweep of orderLaneChain keeps the ordered list duplicate-free,
keeps everything already in it, puts every machine id into it, and adds only
machine ids. -/
theorem backfill_props (ms : List LaneMachine) :
    ∀ acc : List ℕ,
      (acc.Nodup → (backfill ms acc).Nodup) ∧
      (∀ i ∈ acc, i ∈ backfill ms acc) ∧
      (∀ m ∈ ms, m.id ∈ backfill ms acc) ∧
      (∀ i ∈ backfill ms acc, i ∈ acc ∨ i ∈ ms.map LaneMachine.id) := by
  induction ms with
  | nil =>
    intro acc
    refine ⟨fun h => h, fun i hi => hi, ?_, fun i hi => Or.inl hi⟩
    intro m hm
    cases hm
  | cons hd tl ih =>
    intro acc
    have hstep : backfill (hd :: tl) acc =
        backfill tl (if hd.id ∈ acc then acc else acc ++ [hd.id]) := by
      simp [backfill]
    rw [hstep]
    by_cases hc : hd.id ∈ acc
    · rw [if_pos hc]
      obtain ⟨h1, h2, h3, h4⟩ := ih acc
      refine ⟨h1, h2, ?_, ?_⟩
      · intro m hm
        rcases List.mem_cons.mp hm with rfl | hm
        · exact h2 _ hc
        · exact h3 m hm
      · intro i hi
        rcases h4 i hi with h | h
        · exact Or.inl h
        · exact Or.inr (List.mem_cons_of_mem _ h)
    · rw [if_neg hc]
      obtain ⟨h1, h2, h3, h4⟩ := ih (acc ++ [hd.id])
      refine ⟨?_, ?_, ?_, ?_⟩
      · intro h
        exact h1 ((chainStop_props (fun _ => True) hc).2.1 h)
      · intro i hi
        exact h2 i (List.mem_append_left _ hi)
      · intro m hm
        rcases List.mem_cons.mp hm with rfl | hm
        · exact h2 _ (List.mem_append_right _ (List.mem_singleton.mpr rfl))
        · exact h3 m hm
      · intro i hi
        rcases h4 i hi with h | h
        · rcases List.mem_append.mp h with h | h
          · exact Or.inl h
          · rw [List.mem_singleton] at h
            subst h
            exact Or.inr (List.mem_map.mpr ⟨hd, List.mem_cons_self _ _, rfl⟩)
        · exact Or.inr (List.mem_map.mpr (by
            rcases List.mem_map.mp h with ⟨m, hm, rfl⟩
            exact ⟨m, List.mem_cons_of_mem _ hm, rfl⟩))

/-- The source walk of orderLaneChain produces a duplicate-free list of
machine ids. -/
theorem walkAll_props (ms : List LaneMachine) :
    (walkAll ms).Nodup ∧ ∀ i ∈ walkAll ms, i ∈ ms.map LaneMachine.id := by
  have key : ∀ (ss : List LaneMachine), (∀ s ∈ ss, s ∈ ms) →
      ∀ ordered : List ℕ, ordered.Nodup → (∀ i ∈ ordered, i ∈ ms.map LaneMachine.id) →
        (ss.foldl (fun o s => chainFrom ms o s.id) ordered).Nodup ∧
        (∀ i ∈ ss.foldl (fun o s => chainFrom ms o s.id) ordered, i ∈ ms.map LaneMachine.id) := by
    intro ss
    induction ss with
    | nil => intro _ ordered h1 h2; exact ⟨h1, h2⟩
    | cons s tl ih =>
      intro hss ordered h1 h2
      simp only [List.foldl_cons]
      refine ih (fun x hx => hss x (List.mem_cons_of_mem _ hx)) _ ?_ ?_
      · exact (chainFrom_props ms ordered s.id).2.1 h1
      · intro i hi
        rcases (chainFrom_props ms ordered s.id).2.2 i hi with h | h | h
        · exact h2 _ h
        · subst h
          exact List.mem_map.mpr ⟨s, hss s (List.mem_cons_self _ _), rfl⟩
        · exact h
  have := key (chainSources ms) (fun s hs => List.mem_of_mem_filter hs) []
    (List.nodup_nil) (by intro i hi; cases hi)
  simpa [walkAll] using this

/-- Claim C8: for every input list of machines — cyclic next chains, missing
ids and cross-lane references included — orderLaneChain yields a
duplicate-free id list in which every input machine's id appears exactly
once, and which contains only input ids; termination is established by
well-founded recursion on the count of machine ids not yet ordered. -/
theorem orderLaneChain_each_id_exactly_once (ms : List LaneMachine) :
    (orderLaneChain ms).Nodup ∧
    (∀ m ∈ ms, (orderLaneChain ms).count m.id = 1) ∧
    (∀ i ∈ orderLaneChain ms, i ∈ ms.map LaneMachine.id) := by
  obtain ⟨hwn, hws⟩ := walkAll_props ms
  obtain ⟨hbn, hbmono, hball, hbsub⟩ := backfill_props ms (walkAll ms)
  have hnodup : (orderLaneChain ms).Nodup := hbn hwn
  refine ⟨hnodup, ?_, ?_⟩
  · intro m hm
    exact List.count_eq_one_of_mem hnodup (hball m hm)
  · intro i hi
    rcases hbsub i hi with h | h
    · exact hws i h
    · exact h

/-- Claim C8 witness: on the concrete cyclic two-machine lane the walk
terminates and each of the two ids appears exactly once. -/
theorem orderLaneChain_cyclic_witness :
    (orderLaneChain cyclicLane).Nodup ∧ (orderLaneChain cyclicLane).count 1 = 1 :=
  ⟨(orderLaneChain_each_id_exactly_once cyclicLane).1,
   (orderLaneChain_each_id_exactly_once cyclicLane).2.1
     { id := 1, next := some 2, lane := 0 } (by simp [cyclicLane])⟩

/-- Once the position scan holds a value it keeps holding one. -/
theorem posScan_isSome_acc (k : ℕ) (ms : List MachineView) :
    ∀ (idx : ℕ) (x : ℚ), (posScan k ms idx (some x)).isSome := by
  induction ms with
  | nil => intro idx x; simp [posScan]
  | cons hd tl ih =>
    intro idx x
    by_cases hc : hd.id = k
    · simp only [posScan, if_pos hc]
      exact ih _ _
    · simp only [posScan, if_neg hc]
      exact ih _ _

/-- Every machine of the snapshot list has a position in the position map. -/
theorem machinePosX_isSome_of_mem {ms : List MachineView} {m : MachineView}
    (hm : m ∈ ms) : (machinePosX ms m.id).isSome := by
  have key : ∀ (l : List MachineView) (idx : ℕ) (acc : Option ℚ), m ∈ l →
      (posScan m.id l idx acc).isSome := by
    intro l
    induction l with
    | nil => intro idx acc h; cases h
    | cons hd tl ih =>
      intro idx acc h
      rcases List.mem_cons.mp h with rfl | htl
      · simp only [posScan, if_pos rfl]
        exact posScan_isSome_acc _ _ _ _
      · simp only [posScan]
        exact ih _ _ htl
  exact key ms 0 none hm

/-- A linear interpolation with a parameter in the unit interval stays
between its endpoints. -/
theorem lerpX_between (a b t : ℚ) (h0 : 0 ≤ t) (h1 : t ≤ 1) :
    min a b ≤ lerpX a b t ∧ lerpX a b t ≤ max a b := by
  unfold lerpX
  rcases le_total a b with hab | hab
  · rw [min_eq_left hab, max_eq_right hab]
    constructor <;> nlinarith
  · rw [min_eq_right hab, max_eq_left hab]
    constructor <;> nlinarith

/-- Claim C9: for every machine of the snapshot and every reported progress
value — below 0 and above 1 included — the interpolation parameter is clamped
to the unit interval, and the rendered item sphere's x coordinate lies
between the machine's x coordinate and the interpolation target, which is the
successor machine's x coordinate (or the machine's own when it has no
successor in the map). -/
theorem movingItem_x_between_machine_and_successor
    (ms : List MachineView) (m : MachineView) (p : ℚ) (hm : m ∈ ms) :
    ∃ fromX, machinePosX ms m.id = some fromX ∧
      movingItemX ms m p = some (lerpX fromX (nextX ms m fromX) (clampT p)) ∧
      0 ≤ clampT p ∧ clampT p ≤ 1 ∧
      min fromX (nextX ms m fromX) ≤ lerpX fromX (nextX ms m fromX) (clampT p) ∧
      lerpX fromX (nextX ms m fromX) (clampT p) ≤ max fromX (nextX ms m fromX) := by
  obtain ⟨fx, hfx⟩ := Option.isSome_iff_exists.mp (machinePosX_isSome_of_mem hm)
  have h0 : 0 ≤ clampT p := le_min (le_max_right _ _) zero_le_one
  have h1 : clampT p ≤ 1 := min_le_right _ _
  obtain ⟨hmin, hmax⟩ := lerpX_between fx (nextX ms m fx) (clampT p) h0 h1
  refine ⟨fx, hfx, ?_, h0, h1, hmin, hmax⟩
  simp [movingItemX, hfx]

/-- Claim C9 witness: the concrete two-machine snapshot with an overshooting
progress value 3/2. -/
theorem movingItem_x_witness :
    ∃ fromX, machinePosX [exMachineView, exMachineView2] exMachineView.id = some fromX ∧
      movingItemX [exMachineView, exMachineView2] exMachineView (3 / 2) =
        some (lerpX fromX (nextX [exMachineView, exMachineView2] exMachineView fromX)
          (clampT (3 / 2))) ∧
      0 ≤ clampT (3 / 2) ∧ clampT (3 / 2) ≤ 1 ∧
      min fromX (nextX [exMachineView, exMachineView2] exMachineView fromX) ≤
        lerpX fromX (nextX [exMachineView, exMachineView2] exMachineView fromX)
          (clampT (3 / 2)) ∧
      lerpX fromX (nextX [exMachineView, exMachineView2] exMachineView fromX)
          (clampT (3 / 2)) ≤
        max fromX (nextX [exMachineView, exMachineView2] exMachineView fromX) :=
  movingItem_x_between_machine_and_successor [exMachineView, exMachineView2] exMachineView
    (3 / 2) (List.mem_cons_self _ _)
